import Mathlib

/-!
Verification of the Heart Disease ETL pipeline (`src/etl_pipeline/pipeline.py`).

A pandas `DataFrame` is embedded as a `Table`: a list of column names together
with a list of rows, each row a list of cells aligned with the column names.
A cell is a string, a (rational) number — pandas numerics are embedded as `Rat`
so that integer and decimal literals both have exact values — or the missing
marker `Cell.na` (pandas `NA`/`NaN`/`NaT`).

Each statement of `HeartDiseaseETL.transform` is embedded as a function on
`Table`:
  * `dedupTable`    — `df.drop_duplicates()` (first occurrence kept),
  * `replaceQna`    — `df.replace("?", pd.NA, inplace=True)`,
  * `dropMissing`   — `df.dropna()`,
  * `numericStep`   — the `for col in df.columns: try df[col] = pd.to_numeric(df[col])`
                      loop, returning the table and the warned column names,
  * `dateStep`      — the date-column loop with
                      `pd.to_datetime(..., errors='coerce').dt.strftime('%Y-%m-%d')`.
`transformTable` chains them in the source order.  `transformExec` re-runs the
same statements against an explicit heap of allocated dataframes, so that the
in-place statements (`replace(..., inplace=True)`, `df[col] = ...`) are visible
as mutations of particular allocations while `drop_duplicates`/`dropna`
allocate fresh frames; this lets us prove which allocations `transform` ever
mutates.  `load` is embedded over an abstract database outcome, with the
`try/except` of the source made explicit as an `Except`-valued body.
-/

/-- A pandas cell: a string, a numeric value, or the missing marker
(`pd.NA` / `NaN` / `NaT`). -/
inductive Cell where
  | str : String → Cell
  | num : Rat → Cell
  | na : Cell
deriving DecidableEq

instance : Inhabited Cell := ⟨Cell.na⟩

/-- A pandas `DataFrame`: ordered column names and rows of cells aligned by
position with the column names. -/
structure Table where
  cols : List String
  rows : List (List Cell)
deriving DecidableEq

instance : Inhabited Table := ⟨⟨[], []⟩⟩

/-- Worker for `dedupRows`: `seen` accumulates the rows already kept. -/
def dedupAux (seen : List (List Cell)) : List (List Cell) → List (List Cell)
  | [] => []
  | r :: rs => if r ∈ seen then dedupAux seen rs else r :: dedupAux (r :: seen) rs

/-- Rows of `df.drop_duplicates()`: keep the first occurrence of each row,
drop later exact duplicates (full-row value equality), preserving order. -/
def dedupRows (l : List (List Cell)) : List (List Cell) := dedupAux [] l

/-- `df = df.drop_duplicates()` (line 63). -/
def dedupTable (t : Table) : Table := ⟨t.cols, dedupRows t.rows⟩

/-- Cell-level effect of `df.replace("?", pd.NA)`: a cell equal to the string
`"?"` becomes the missing marker, every other cell is untouched. -/
def replaceCell (c : Cell) : Cell := if c = Cell.str "?" then Cell.na else c

/-- `df.replace("?", pd.NA, inplace=True)` (line 67). -/
def replaceQna (t : Table) : Table := ⟨t.cols, t.rows.map (List.map replaceCell)⟩

/-- `df = df.dropna()` (line 68): drop every row containing a missing marker. -/
def dropMissing (t : Table) : Table :=
  ⟨t.cols, t.rows.filter (fun r => decide (Cell.na ∉ r))⟩

/-- Numeric value of a nonempty digit string. -/
def digitsVal (cs : List Char) : Nat :=
  cs.foldl (fun n c => 10 * n + (c.toNat - 48)) 0

/-- All characters are decimal digits. -/
def isDigits (cs : List Char) : Bool := cs.all (fun c => c.isDigit)

/-- Parse of a numeric literal, as `pd.to_numeric` accepts it on a string:
optional sign, then an integer literal or a decimal literal with a
locale-invariant decimal point. -/
def parseRat (s : String) : Option Rat :=
  let signed : Bool × List Char :=
    match s.data with
    | '-' :: rest => (true, rest)
    | '+' :: rest => (false, rest)
    | rest => (false, rest)
  let body := signed.2
  let mk : Rat → Rat := fun v => if signed.1 then -v else v
  match body.splitOn '.' with
  | [ip] =>
    if !ip.isEmpty && isDigits ip then some (mk (digitsVal ip)) else none
  | [ip, fp] =>
    if (!ip.isEmpty || !fp.isEmpty) && isDigits ip && isDigits fp then
      some (mk ((digitsVal ip : Rat) + (digitsVal fp : Rat) / ((10 : Rat) ^ fp.length)))
    else none
  | _ => none

/-- `pd.to_numeric` on one cell: numbers pass through, the missing marker stays
missing, a string parses as a numeric literal or fails. -/
def toNumericCell : Cell → Option Cell
  | Cell.num q => some (Cell.num q)
  | Cell.na => some Cell.na
  | Cell.str s => (parseRat s).map Cell.num

/-- `pd.to_numeric` on a whole column: succeeds with the parsed values iff
every cell parses (all-or-nothing). -/
def coerceCol : List Cell → Option (List Cell)
  | [] => some []
  | c :: cs =>
    match toNumericCell c, coerceCol cs with
    | some v, some vs => some (v :: vs)
    | _, _ => none

/-- Column `i` of a table, read off the rows. -/
def getCol (t : Table) (i : Nat) : List Cell :=
  t.rows.map (fun r => r.getD i Cell.na)

/-- Overwrite column `i` of a table with the given values (row `k` receives
value `k`). -/
def setColVals (t : Table) (i : Nat) (vs : List Cell) : Table :=
  ⟨t.cols, (t.rows.zip vs).map (fun p => p.1.set i p.2)⟩

/-- One iteration of the numeric-coercion loop (lines 72–76):
`try: df[col] = pd.to_numeric(df[col]) except: warn(col)`.  The state is the
current dataframe together with the warned column names so far. -/
def numericLoopF (p : Table × List String) (i : Nat) : Table × List String :=
  match coerceCol (getCol p.1 i) with
  | some vs => (setColVals p.1 i vs, p.2)
  | none => (p.1, p.2 ++ [p.1.cols.getD i ""])

/-- The whole numeric-coercion loop `for col in df.columns` (lines 72–76);
returns the updated table and the list of columns that were warned about. -/
def numericStep (t : Table) : Table × List String :=
  (List.range t.cols.length).foldl numericLoopF (t, [])

/-- Python `str.lower` on one character (ASCII letters, as in the column
names this pipeline sees). -/
def lowerChar (c : Char) : Char :=
  if 'A' ≤ c && c ≤ 'Z' then Char.ofNat (c.toNat + 32) else c

/-- Does `pat` start the list `l`? -/
def startsWith : List Char → List Char → Bool
  | [], _ => true
  | _ :: _, [] => false
  | a :: as, b :: bs => a == b && startsWith as bs

/-- Does `pat` occur as a contiguous sublist of `l`? -/
def containsSub (pat : List Char) : List Char → Bool
  | [] => pat.isEmpty
  | c :: cs => startsWith pat (c :: cs) || containsSub pat cs

/-- `'date' in col.lower()` (line 79). -/
def dateName (s : String) : Bool :=
  containsSub ['d', 'a', 't', 'e'] (s.data.map lowerChar)

/-- All characters digits and length within the given bounds. -/
def digitsLen (cs : List Char) (lo hi : Nat) : Bool :=
  decide (lo ≤ cs.length) && decide (cs.length ≤ hi) && isDigits cs

/-- Calendar-date parse under the common formats `pd.to_datetime` accepts for
these inputs: ISO `YYYY-MM-DD` and US `MM/DD/YYYY` (month/day may be one or
two digits), with the month in 1..12 and the day in 1..31. -/
def parseDate (s : String) : Option (Nat × Nat × Nat) :=
  let valid : Nat → Nat → Nat → Bool := fun _ m d =>
    decide (1 ≤ m) && decide (m ≤ 12) && decide (1 ≤ d) && decide (d ≤ 31)
  match s.data.splitOn '-' with
  | [yp, mp, dp] =>
    if digitsLen yp 4 4 && digitsLen mp 1 2 && digitsLen dp 1 2 then
      if valid (digitsVal yp) (digitsVal mp) (digitsVal dp) then
        some (digitsVal yp, digitsVal mp, digitsVal dp)
      else none
    else none
  | _ =>
    match s.data.splitOn '/' with
    | [mp, dp, yp] =>
      if digitsLen yp 4 4 && digitsLen mp 1 2 && digitsLen dp 1 2 then
        if valid (digitsVal yp) (digitsVal mp) (digitsVal dp) then
          some (digitsVal yp, digitsVal mp, digitsVal dp)
        else none
      else none
    | _ => none

/-- A natural number printed in decimal, left-padded with zeros to width `w`. -/
def padNum (w n : Nat) : String :=
  ⟨List.replicate (w - (toString n).length) '0' ++ (toString n).data⟩

/-- `strftime('%Y-%m-%d')` on a parsed date. -/
def formatDate : Nat × Nat × Nat → String
  | (y, m, d) => padNum 4 y ++ "-" ++ padNum 2 m ++ "-" ++ padNum 2 d

/-- Effect of `pd.to_datetime(col, errors='coerce').dt.strftime('%Y-%m-%d')`
on one cell: a string parsing as a date becomes its canonical `YYYY-MM-DD`
string, anything else (unparseable string, missing, non-string) becomes the
missing marker (`NaT` then `NaN` under `strftime`). -/
def dateCell : Cell → Cell
  | Cell.str s =>
    match parseDate s with
    | some p => Cell.str (formatDate p)
    | none => Cell.na
  | _ => Cell.na

/-- Rewrite column `i` of a table through `f`. -/
def mapColAt (t : Table) (i : Nat) (f : Cell → Cell) : Table :=
  ⟨t.cols, t.rows.map (fun r => r.set i (f (r.getD i Cell.na)))⟩

/-- The date-standardization loop (lines 79–85): every column whose name
contains `"date"` (case-insensitively) is rewritten cell-by-cell through
`dateCell`; other columns are untouched. -/
def dateStep (t : Table) : Table :=
  (List.range t.cols.length).foldl
    (fun t' i => if dateName (t'.cols.getD i "") then mapColAt t' i dateCell else t') t

/-- `HeartDiseaseETL.transform` (lines 45–87), as the chain of its statements:
dedup, sentinel replacement, drop-missing, numeric coercion, date
standardization.  Returns the cleaned table and the numeric-coercion warnings. -/
def transformTable (t : Table) : Table × List String :=
  let df1 := dedupTable t
  let df2 := replaceQna df1
  let df3 := dropMissing df2
  let p := numericStep df3
  let df5 := dateStep p.1
  (df5, p.2)

/-- What the numeric-coercion loop leaves in column `i`: the parsed values if
every cell of the column parses, the untouched column otherwise. -/
def colResult (t : Table) (i : Nat) : List Cell :=
  match coerceCol (getCol t i) with
  | some vs => vs
  | none => getCol t i

/-- The warnings the numeric-coercion loop emits while visiting the columns
`l` of `t`: the name of every visited column that fails to coerce. -/
def warnOf (t : Table) (l : List Nat) : List String :=
  l.filterMap (fun j =>
    if coerceCol (getCol t j) = none then some (t.cols.getD j "") else none)

/-- `HeartDiseaseETL.transform` replayed statement by statement against an
explicit heap of allocated dataframes.  The caller's dataframe sits at
address 0.  `df = df.drop_duplicates()` and `df = df.dropna()` allocate fresh
frames (pandas returns a copy), while `df.replace(..., inplace=True)` and the
`df[col] = ...` assignments of the two loops mutate the frame the local `df`
currently points at.  Returns the final heap with the warnings, and the
address the local `df` holds at `return df`. -/
def transformExec (t : Table) : (List Table × List String) × Nat :=
  let h1 := [t] ++ [dedupTable ([t].getD 0 default)]
  let h2 := h1.set 1 (replaceQna (h1.getD 1 default))
  let h3 := h2 ++ [dropMissing (h2.getD 1 default)]
  let p := (List.range ((h3.getD 2 default).cols.length)).foldl
    (fun (q : List Table × List String) i =>
      (q.1.set 2 (numericLoopF (q.1.getD 2 default, q.2) i).1,
       (numericLoopF (q.1.getD 2 default, q.2) i).2)) (h3, [])
  let h5 := (List.range ((p.1.getD 2 default).cols.length)).foldl
    (fun (hh : List Table) i =>
      if dateName ((hh.getD 2 default).cols.getD i "")
        then hh.set 2 (mapColAt (hh.getD 2 default) i dateCell) else hh) p.1
  ((h5, p.2), 2)

/-- Outcome of the database interaction in `load`: the connection and the
write both succeed, or `create_engine` raises, or `to_sql` raises. -/
inductive DbOutcome where
  | ok : DbOutcome
  | connectFail : String → DbOutcome
  | writeFail : String → DbOutcome

/-- `create_engine(self.db_uri)` (line 98): raises iff the connection fails. -/
def createEngine (o : DbOutcome) : Except String Unit :=
  match o with
  | DbOutcome.connectFail e => Except.error e
  | _ => Except.ok ()

/-- `df.to_sql(self.table_name, engine, if_exists="replace", index=False)`
(line 99): on success the destination table now holds exactly the dataframe
(drop-and-recreate); raises iff the write fails. -/
def toSqlReplace (t : Table) (o : DbOutcome) : Except String Table :=
  match o with
  | DbOutcome.writeFail e => Except.error e
  | _ => Except.ok t

/-- The body of the `try:` block of `HeartDiseaseETL.load` (lines 98–100),
with Python exception propagation made explicit as `Except.error`. -/
def loadBody (t : Table) (tableName : String) (o : DbOutcome) : Except String (List String) :=
  match createEngine o with
  | Except.error e => Except.error e
  | Except.ok _ =>
    match toSqlReplace t o with
    | Except.error e => Except.error e
    | Except.ok _ =>
      Except.ok ["Data successfully loaded into table '" ++ tableName ++ "'."]

/-- `HeartDiseaseETL.load` (lines 89–102): the `try/except` around the body
catches every exception and logs it, so the caller-visible result is always a
normal return (`Except.ok`) carrying the log lines. -/
def load (t : Table) (tableName : String) (o : DbOutcome) : Except String (List String) :=
  match loadBody t tableName o with
  | Except.ok logs => Except.ok logs
  | Except.error e => Except.ok ["Failed to load data into PostgreSQL: " ++ e]

/-- A single-column table holding the string `"1"` and the number `1` in two
distinct rows. -/
def tMixed : Table := ⟨["a"], [[Cell.str "1"], [Cell.num 1]]⟩

/-- A table with a date-named column holding a string no date format parses. -/
def tBadDate : Table := ⟨["visit_date"], [[Cell.str "bad"]]⟩

/-- A date-named column with an ISO date, a US-format date, and junk — the
spec's own date example. -/
def tDates : Table :=
  ⟨["visit_date"], [[Cell.str "2020-01-15"], [Cell.str "01/16/2020"], [Cell.str "bad"]]⟩

/-- A two-column table whose first column is all numeric literals and whose
second column contains a non-numeric string. -/
def tNum : Table :=
  ⟨["a", "b"], [[Cell.str "5", Cell.str "x"], [Cell.num 2, Cell.str "y"]]⟩

/-- The spec's end-to-end sample table (also the unit test's `sample_data`):
a duplicate row and two `"?"` sentinels among mixed string/number cells. -/
def sampleTable : Table :=
  ⟨["age", "sex", "cp", "chol"],
   [[Cell.str "29", Cell.num 1, Cell.num 0, Cell.num 240],
    [Cell.str "45", Cell.num 0, Cell.num 1, Cell.str "?"],
    [Cell.str "29", Cell.num 1, Cell.num 0, Cell.num 240],
    [Cell.str "60", Cell.num 1, Cell.num 3, Cell.num 190]]⟩

-- ### Basic list helpers used throughout

/-- Setting position `j` does not change what is read at position `i ≠ j`. -/
theorem getD_set_ne {α : Type} (l : List α) (i j : Nat) (a d : α) (h : i ≠ j) :
    (l.set j a).getD i d = l.getD i d := by
  induction l generalizing i j with
  | nil => rfl
  | cons x xs ih =>
    cases j with
    | zero =>
      cases i with
      | zero => exact absurd rfl h
      | succ i' => rfl
    | succ j' =>
      cases i with
      | zero => rfl
      | succ i' =>
        simp only [List.set, List.getD, List.get?]
        exact ih i' j' (fun hc => h (by simp [hc]))

/-- Reading back a position that was just set, when it is in range. -/
theorem getD_set_self {α : Type} (l : List α) (i : Nat) (a d : α)
    (h : i < l.length) : (l.set i a).getD i d = a := by
  induction l generalizing i with
  | nil => exact absurd h (by simp)
  | cons x xs ih =>
    cases i with
    | zero => rfl
    | succ i' =>
      simp only [List.set, List.getD, List.get?]
      exact ih i' (Nat.lt_of_succ_lt_succ h)

/-- Setting a position out of range is a no-op. -/
theorem set_oob {α : Type} (l : List α) (i : Nat) (a : α)
    (h : l.length ≤ i) : l.set i a = l := by
  induction l generalizing i with
  | nil => rfl
  | cons x xs ih =>
    cases i with
    | zero => exact absurd h (by simp)
    | succ i' => simp only [List.set]; rw [ih i' (Nat.le_of_succ_le_succ h)]

/-- Setting the same position twice keeps only the second write. -/
theorem set_set_self {α : Type} (l : List α) (i : Nat) (a b : α) :
    (l.set i a).set i b = l.set i b := by
  induction l generalizing i with
  | nil => rfl
  | cons x xs ih =>
    cases i with
    | zero => rfl
    | succ i' => simp only [List.set]; rw [ih]

/-- Membership in a list after `set`: the element was there before or is the
written value. -/
theorem mem_of_mem_set {α : Type} {l : List α} {i : Nat} {a c : α}
    (h : c ∈ l.set i a) : c ∈ l ∨ c = a := by
  induction l generalizing i with
  | nil => simp at h
  | cons x xs ih =>
    cases i with
    | zero =>
      rcases List.mem_cons.mp h with h | h
      · exact Or.inr h
      · exact Or.inl (List.mem_cons_of_mem _ h)
    | succ i' =>
      rcases List.mem_cons.mp h with h | h
      · exact Or.inl (h ▸ List.mem_cons_self _ _)
      · rcases ih h with h' | h'
        · exact Or.inl (List.mem_cons_of_mem _ h')
        · exact Or.inr h'

/-- A fold whose body fixes the state leaves it unchanged. -/
theorem foldl_fixed {σ α : Type} (f : σ → α → σ) (s : σ) (l : List α)
    (h : ∀ a ∈ l, f s a = s) : l.foldl f s = s := by
  induction l with
  | nil => rfl
  | cons x xs ih =>
    rw [List.foldl_cons, h x (List.mem_cons_self _ _)]
    exact ih (fun a ha => h a (List.mem_cons_of_mem _ ha))

/-- A fold preserves any invariant its body preserves. -/
theorem foldl_inv {σ α : Type} (P : σ → Prop) (f : σ → α → σ)
    (hf : ∀ s a, P s → P (f s a)) :
    ∀ (l : List α) (s : σ), P s → P (l.foldl f s) := by
  intro l
  induction l with
  | nil => intro s hs; exact hs
  | cons x xs ih => intro s hs; exact ih (f s x) (hf s x hs)

-- ### Deduplication lemmas

/-- Every row kept by `dedupAux` comes from the input. -/
theorem dedupAux_sub (l : List (List Cell)) :
    ∀ (seen : List (List Cell)) (x : List Cell), x ∈ dedupAux seen l → x ∈ l := by
  induction l with
  | nil => intro seen x h; simp [dedupAux] at h
  | cons r rs ih =>
    intro seen x h
    by_cases hr : r ∈ seen
    · simp only [dedupAux, if_pos hr] at h
      exact List.mem_cons_of_mem _ (ih seen x h)
    · simp only [dedupAux, if_neg hr] at h
      rcases List.mem_cons.mp h with h | h
      · exact h ▸ List.mem_cons_self _ _
      · exact List.mem_cons_of_mem _ (ih _ x h)

/-- `dedupAux` produces pairwise-distinct rows, none of them in `seen`. -/
theorem dedupAux_nodup (l : List (List Cell)) :
    ∀ seen, (dedupAux seen l).Nodup ∧ ∀ x ∈ dedupAux seen l, x ∉ seen := by
  induction l with
  | nil => intro seen; exact ⟨List.nodup_nil, by simp [dedupAux]⟩
  | cons r rs ih =>
    intro seen
    by_cases hr : r ∈ seen
    · simp only [dedupAux, if_pos hr]; exact ih seen
    · simp only [dedupAux, if_neg hr]
      obtain ⟨hnd, hnin⟩ := ih (r :: seen)
      refine ⟨List.nodup_cons.mpr ⟨fun hmem => hnin r hmem (List.mem_cons_self _ _), hnd⟩, ?_⟩
      intro x hx
      rcases List.mem_cons.mp hx with h | h
      · exact h ▸ hr
      · exact fun hxs => hnin x h (List.mem_cons_of_mem _ hxs)

/-- On an input with pairwise-distinct rows disjoint from `seen`, `dedupAux`
keeps everything. -/
theorem dedupAux_eq_self (l : List (List Cell)) :
    ∀ seen, l.Nodup → (∀ x ∈ l, x ∉ seen) → dedupAux seen l = l := by
  induction l with
  | nil => intro seen _ _; rfl
  | cons r rs ih =>
    intro seen hnd hdis
    have hr : r ∉ seen := hdis r (List.mem_cons_self _ _)
    simp only [dedupAux, if_neg hr]
    congr 1
    refine ih (r :: seen) (List.nodup_cons.mp hnd).2 ?_
    intro x hx hxs
    rcases List.mem_cons.mp hxs with h | h
    · exact (List.nodup_cons.mp hnd).1 (h ▸ hx)
    · exact hdis x (List.mem_cons_of_mem _ hx) h

/-- The rows surviving `drop_duplicates` are pairwise distinct. -/
theorem dedupRows_nodup (l : List (List Cell)) : (dedupRows l).Nodup :=
  (dedupAux_nodup l []).1

/-- `drop_duplicates` keeps an already-duplicate-free row list unchanged. -/
theorem dedupRows_eq_self (l : List (List Cell)) (h : l.Nodup) : dedupRows l = l :=
  dedupAux_eq_self l [] h (by intro x _ hx; simp at hx)

/-- C9: deduplication is idempotent — on an input table whose rows are already
pairwise distinct, the `drop_duplicates` step of `transform` removes zero rows,
returning the table unchanged. -/
theorem dedup_idempotent (t : Table) (h : t.rows.Nodup) : dedupTable t = t := by
  unfold dedupTable
  rw [dedupRows_eq_self t.rows h]

/-- Witness for C9 at a concrete duplicate-free table. -/
theorem dedup_idempotent_witness :
    dedupTable ⟨["a", "b"], [[Cell.num 1, Cell.str "x"], [Cell.num 2, Cell.str "y"]]⟩
      = ⟨["a", "b"], [[Cell.num 1, Cell.str "x"], [Cell.num 2, Cell.str "y"]]⟩ :=
  dedup_idempotent _ (by decide)

-- ### Column-structure preservation

/-- One numeric-loop iteration never changes the column names. -/
theorem numericLoopF_cols (p : Table × List String) (i : Nat) :
    (numericLoopF p i).1.cols = p.1.cols := by
  unfold numericLoopF
  cases coerceCol (getCol p.1 i) with
  | none => rfl
  | some vs => rfl

/-- The numeric-coercion loop never changes the column names. -/
theorem numericStep_cols (t : Table) : (numericStep t).1.cols = t.cols :=
  foldl_inv (fun p => p.1.cols = t.cols) numericLoopF
    (fun s i hs => (numericLoopF_cols s i).trans hs) _ _ rfl

/-- One date-loop iteration never changes the column names. -/
theorem dateBody_cols (t' : Table) (i : Nat) :
    (if dateName (t'.cols.getD i "") then mapColAt t' i dateCell else t').cols = t'.cols := by
  cases h : dateName (t'.cols.getD i "") <;> simp [h, mapColAt]

/-- The date-standardization loop never changes the column names. -/
theorem dateStep_cols (t : Table) : (dateStep t).cols = t.cols :=
  foldl_inv (fun t' => t'.cols = t.cols)
    (fun t' i => if dateName (t'.cols.getD i "") then mapColAt t' i dateCell else t')
    (fun s i hs => (dateBody_cols s i).trans hs) _ _ rfl

/-- C10: `transform` preserves the column structure exactly — the output table
has the same column names in the same order as the input; no step adds,
removes, or renames a column. -/
theorem transform_preserves_cols (t : Table) : (transformTable t).1.cols = t.cols := by
  show (dateStep (numericStep (dropMissing (replaceQna (dedupTable t)))).1).cols = t.cols
  rw [dateStep_cols, numericStep_cols]
  rfl

-- ### Empty-table behavior

/-- On a table with no rows the numeric loop body is the identity. -/
theorem numericLoopF_empty (cols : List String) (ws : List String) (i : Nat) :
    numericLoopF (⟨cols, []⟩, ws) i = (⟨cols, []⟩, ws) := rfl

/-- On a table with no rows the date loop body is the identity. -/
theorem dateBody_empty (cols : List String) (i : Nat) :
    (if dateName ((Table.mk cols []).cols.getD i "")
      then mapColAt ⟨cols, []⟩ i dateCell else ⟨cols, []⟩) = ⟨cols, []⟩ := by
  cases h : dateName ((Table.mk cols []).cols.getD i "") <;> simp [h, mapColAt]

/-- C4: `transform` is total by construction (every stage is a total function
of the table, and failed coercions are absorbed into warnings rather than
errors), and on an empty input table every stage is a no-op: deduplication,
sentinel replacement, missing-row removal, numeric coercion, and date
standardization each return the empty table, and `transform` returns the empty
table with no warnings. -/
theorem transform_empty (cols : List String) :
    dedupTable ⟨cols, []⟩ = ⟨cols, []⟩ ∧
    replaceQna ⟨cols, []⟩ = ⟨cols, []⟩ ∧
    dropMissing ⟨cols, []⟩ = ⟨cols, []⟩ ∧
    numericStep ⟨cols, []⟩ = (⟨cols, []⟩, []) ∧
    dateStep ⟨cols, []⟩ = ⟨cols, []⟩ ∧
    transformTable ⟨cols, []⟩ = (⟨cols, []⟩, []) := by
  have hnum : numericStep ⟨cols, []⟩ = (⟨cols, []⟩, []) :=
    foldl_fixed _ _ _ (fun a _ => numericLoopF_empty cols [] a)
  have hdate : dateStep ⟨cols, []⟩ = ⟨cols, []⟩ :=
    foldl_fixed _ _ _ (fun a _ => dateBody_empty cols a)
  refine ⟨rfl, rfl, rfl, hnum, hdate, ?_⟩
  show (dateStep (numericStep (dropMissing (replaceQna (dedupTable ⟨cols, []⟩)))).1,
        (numericStep (dropMissing (replaceQna (dedupTable ⟨cols, []⟩)))).2) = (⟨cols, []⟩, [])
  have h3 : dropMissing (replaceQna (dedupTable ⟨cols, []⟩)) = ⟨cols, []⟩ := rfl
  rw [h3, hnum, hdate]

-- ### Numeric coercion: column-level behavior of the loop

/-- Reading out of range yields the fallback. -/
theorem getD_oob {α : Type} (l : List α) (i : Nat) (d : α) (h : l.length ≤ i) :
    l.getD i d = d := by
  induction l generalizing i with
  | nil => cases i <;> rfl
  | cons x xs ih =>
    cases i with
    | zero => exact absurd h (by simp)
    | succ i' => exact ih i' (Nat.le_of_succ_le_succ h)

/-- A successful column coercion yields one value per cell. -/
theorem coerceCol_length (l : List Cell) :
    ∀ vs, coerceCol l = some vs → vs.length = l.length := by
  induction l with
  | nil =>
    intro vs h
    simp only [coerceCol, Option.some.injEq] at h
    rw [← h]
  | cons c cs ih =>
    intro vs h
    unfold coerceCol at h
    cases hv : toNumericCell c with
    | none => rw [hv] at h; simp at h
    | some v =>
      cases hcs : coerceCol cs with
      | none => rw [hv, hcs] at h; simp at h
      | some vs' =>
        rw [hv, hcs] at h
        simp only [Option.some.injEq] at h
        rw [← h]
        simp [ih vs' hcs]

/-- Writing the coerced value of a cell back into its row makes the row read
that value at the written position (even for a ragged short row, where both
sides are the missing marker). -/
theorem set_getD_of_toNumeric (r : List Cell) (i : Nat) (v : Cell)
    (h : toNumericCell (r.getD i Cell.na) = some v) :
    (r.set i v).getD i Cell.na = v := by
  by_cases hi : i < r.length
  · exact getD_set_self r i v Cell.na hi
  · have hoob : r.length ≤ i := Nat.le_of_not_lt hi
    rw [set_oob r i v hoob, getD_oob r i Cell.na hoob]
    rw [getD_oob r i Cell.na hoob] at h
    simp only [toNumericCell, Option.some.injEq] at h
    exact h

/-- Writing a successfully coerced column back yields exactly the coerced
values when the column is read again. -/
theorem setCol_self_aux (rows : List (List Cell)) :
    ∀ (vs : List Cell) (i : Nat),
    coerceCol (rows.map (fun r => r.getD i Cell.na)) = some vs →
    ((rows.zip vs).map (fun p => p.1.set i p.2)).map (fun r => r.getD i Cell.na) = vs := by
  induction rows with
  | nil =>
    intro vs i h
    simp only [List.map_nil, coerceCol, Option.some.injEq] at h
    rw [← h]
    rfl
  | cons r rs ih =>
    intro vs i h
    simp only [List.map_cons] at h
    unfold coerceCol at h
    cases hv : toNumericCell (r.getD i Cell.na) with
    | none => rw [hv] at h; simp at h
    | some v =>
      cases hrest : coerceCol (rs.map (fun r => r.getD i Cell.na)) with
      | none => rw [hv, hrest] at h; simp at h
      | some vs' =>
        rw [hv, hrest] at h
        simp only [Option.some.injEq] at h
        rw [← h]
        simp only [List.zip_cons_cons, List.map_cons]
        rw [set_getD_of_toNumeric r i v hv, ih vs' i hrest]

/-- Writing some column `j` back does not change what is read in a column
`i ≠ j`. -/
theorem setCol_ne_aux (rows : List (List Cell)) :
    ∀ (vs : List Cell), rows.length = vs.length → ∀ (i j : Nat), i ≠ j →
    ((rows.zip vs).map (fun p => p.1.set j p.2)).map (fun r => r.getD i Cell.na)
      = rows.map (fun r => r.getD i Cell.na) := by
  induction rows with
  | nil => intro vs _ i j _; rfl
  | cons r rs ih =>
    intro vs hlen i j hij
    cases vs with
    | nil => simp at hlen
    | cons v vs' =>
      simp only [List.zip_cons_cons, List.map_cons]
      rw [getD_set_ne r i j v Cell.na hij,
          ih vs' (by simpa using hlen) i j hij]

/-- Column read-back after a successful coercion write. -/
theorem getCol_setColVals_self (t : Table) (i : Nat) (vs : List Cell)
    (h : coerceCol (getCol t i) = some vs) : getCol (setColVals t i vs) i = vs :=
  setCol_self_aux t.rows vs i h

/-- Other columns are untouched by a coercion write. -/
theorem getCol_setColVals_ne (t : Table) (j : Nat) (vs : List Cell)
    (hlen : t.rows.length = vs.length) (i : Nat) (hij : i ≠ j) :
    getCol (setColVals t j vs) i = getCol t i :=
  setCol_ne_aux t.rows vs hlen i j hij

/-- `filterMap` only looks at the function's values on the list's members. -/
theorem filterMapAgree {α β : Type} (l : List α) (f g : α → Option β)
    (h : ∀ a ∈ l, f a = g a) : l.filterMap f = l.filterMap g := by
  induction l with
  | nil => rfl
  | cons x xs ih =>
    rw [List.filterMap_cons, List.filterMap_cons, h x (List.mem_cons_self _ _),
        ih (fun a ha => h a (List.mem_cons_of_mem _ ha))]

/-- Full description of the numeric-coercion loop over any duplicate-free list
of column indices: column names are kept, unvisited columns are untouched,
each visited column holds its all-or-nothing result, and the warnings are
exactly the names of the visited columns that failed, in visiting order. -/
theorem numFold_spec (l : List Nat) :
    l.Nodup → ∀ (t : Table) (ws : List String),
    (l.foldl numericLoopF (t, ws)).1.cols = t.cols ∧
    (∀ i, i ∉ l → getCol (l.foldl numericLoopF (t, ws)).1 i = getCol t i) ∧
    (∀ i ∈ l, getCol (l.foldl numericLoopF (t, ws)).1 i = colResult t i) ∧
    (l.foldl numericLoopF (t, ws)).2 = ws ++ warnOf t l := by
  induction l with
  | nil =>
    intro _ t ws
    exact ⟨rfl, fun i _ => rfl, fun i hi => absurd hi (List.not_mem_nil i), by simp [warnOf]⟩
  | cons j l' ih =>
    intro hnd t ws
    obtain ⟨hj, hnd'⟩ := List.nodup_cons.mp hnd
    rw [List.foldl_cons]
    cases hc : coerceCol (getCol t j) with
    | some vs =>
      have hstep : numericLoopF (t, ws) j = (setColVals t j vs, ws) := by
        unfold numericLoopF; rw [hc]
      rw [hstep]
      obtain ⟨ihc, ihne, ihmem, ihw⟩ := ih hnd' (setColVals t j vs) ws
      have hvslen : t.rows.length = vs.length := by
        have hl := coerceCol_length _ _ hc
        simp only [getCol, List.length_map] at hl
        exact hl.symm
      have hne : ∀ i, i ≠ j → getCol (setColVals t j vs) i = getCol t i :=
        fun i hij => getCol_setColVals_ne t j vs hvslen i hij
      refine ⟨ihc, ?_, ?_, ?_⟩
      · intro i hi
        have hij : i ≠ j := fun h => hi (h ▸ List.mem_cons_self _ _)
        have hil : i ∉ l' := fun h => hi (List.mem_cons_of_mem _ h)
        rw [ihne i hil, hne i hij]
      · intro i hi
        rcases List.mem_cons.mp hi with rfl | hil
        · rw [ihne i hj, getCol_setColVals_self t i vs hc]
          unfold colResult
          rw [hc]
        · have hij : i ≠ j := fun h => hj (h ▸ hil)
          rw [ihmem i hil]
          unfold colResult
          rw [hne i hij]
      · rw [ihw]
        have hwagree : warnOf (setColVals t j vs) l' = warnOf t l' := by
          unfold warnOf
          refine filterMapAgree l' _ _ ?_
          intro a ha
          have haj : a ≠ j := fun h => hj (h ▸ ha)
          rw [hne a haj]
          rfl
        rw [hwagree]
        unfold warnOf
        rw [List.filterMap_cons]
        simp [hc]
    | none =>
      have hstep : numericLoopF (t, ws) j = (t, ws ++ [t.cols.getD j ""]) := by
        unfold numericLoopF; rw [hc]
      rw [hstep]
      obtain ⟨ihc, ihne, ihmem, ihw⟩ := ih hnd' t (ws ++ [t.cols.getD j ""])
      refine ⟨ihc, ?_, ?_, ?_⟩
      · intro i hi
        exact ihne i (fun h => hi (List.mem_cons_of_mem _ h))
      · intro i hi
        rcases List.mem_cons.mp hi with rfl | hil
        · rw [ihne i hj]
          unfold colResult
          rw [hc]
        · exact ihmem i hil
      · rw [ihw]
        unfold warnOf
        rw [List.filterMap_cons]
        simp [hc]

/-- C3: numeric coercion is all-or-nothing per column.  For every column `i`
of the table the loop runs on: if every value of the column parses, the loop
leaves the parsed values in that column and (for duplicate-free column names)
does not warn about it; if any value fails to parse, the column is completely
unchanged — same values in the same order — and the loop's warnings name the
column. -/
theorem numeric_all_or_nothing (u : Table) (i : Nat) (hi : i < u.cols.length) :
    (∀ vs, coerceCol (getCol u i) = some vs →
        getCol (numericStep u).1 i = vs ∧
        (u.cols.Nodup → u.cols.getD i "" ∉ (numericStep u).2)) ∧
    (coerceCol (getCol u i) = none →
        getCol (numericStep u).1 i = getCol u i ∧
        u.cols.getD i "" ∈ (numericStep u).2) := by
  obtain ⟨hcols, hne, hmem, hw⟩ :=
    numFold_spec (List.range u.cols.length) (List.nodup_range _) u []
  have hiR : i ∈ List.range u.cols.length := List.mem_range.mpr hi
  constructor
  · intro vs hvs
    constructor
    · show getCol ((List.range u.cols.length).foldl numericLoopF (u, [])).1 i = vs
      rw [hmem i hiR]
      unfold colResult
      rw [hvs]
    · intro hnodup hmemw
      have hmemw' : u.cols.getD i "" ∈ warnOf u (List.range u.cols.length) := by
        have hw' : (numericStep u).2 = [] ++ warnOf u (List.range u.cols.length) := hw
        rw [hw'] at hmemw
        simpa using hmemw
      unfold warnOf at hmemw'
      obtain ⟨j, hjR, hj⟩ := List.mem_filterMap.mp hmemw'
      by_cases hcj : coerceCol (getCol u j) = none
      · rw [if_pos hcj] at hj
        have hjlt : j < u.cols.length := List.mem_range.mp hjR
        have hname : u.cols.getD j "" = u.cols.getD i "" := by
          simpa using hj
        have hij : j = i := by
          have hgj : u.cols.getD j "" = u.cols.get ⟨j, hjlt⟩ := List.getD_eq_get _ _ _
          have hgi : u.cols.getD i "" = u.cols.get ⟨i, hi⟩ := List.getD_eq_get _ _ _
          have : u.cols.get ⟨j, hjlt⟩ = u.cols.get ⟨i, hi⟩ := by
            rw [← hgj, ← hgi]; exact hname
          exact congrArg Fin.val (List.nodup_iff_injective_get.mp hnodup this)
        rw [hij] at hcj
        rw [hvs] at hcj
        exact Option.noConfusion hcj
      · rw [if_neg hcj] at hj
        exact Option.noConfusion hj
  · intro hnone
    constructor
    · show getCol ((List.range u.cols.length).foldl numericLoopF (u, [])).1 i = getCol u i
      rw [hmem i hiR]
      unfold colResult
      rw [hnone]
    · show u.cols.getD i "" ∈ ((List.range u.cols.length).foldl numericLoopF (u, [])).2
      rw [hw]
      simp only [List.nil_append]
      unfold warnOf
      exact List.mem_filterMap.mpr ⟨i, hiR, by rw [if_pos hnone]⟩

/-- Witness for C3: on `tNum`, the all-numeric column `"a"` comes out parsed
and unwarned, the column `"b"` with a non-numeric value comes out unchanged
and warned. -/
theorem numeric_all_or_nothing_witness :
    (getCol (numericStep tNum).1 0 = [Cell.num 5, Cell.num 2] ∧
      "a" ∉ (numericStep tNum).2) ∧
    (getCol (numericStep tNum).1 1 = [Cell.str "x", Cell.str "y"] ∧
      "b" ∈ (numericStep tNum).2) := by
  have h0 := numeric_all_or_nothing tNum 0 (by decide)
  have h1 := numeric_all_or_nothing tNum 1 (by decide)
  have hs := h0.1 [Cell.num 5, Cell.num 2] (by decide)
  have hf := h1.2 (by decide)
  exact ⟨⟨hs.1, hs.2 (by decide)⟩, ⟨hf.1, hf.2⟩⟩

-- ### Date standardization: column-level behavior of the loop

/-- `strftime` of a coerced date never yields the bare sentinel string. -/
theorem formatDate_ne_q (p : Nat × Nat × Nat) : formatDate p ≠ "?" := by
  obtain ⟨y, m, d⟩ := p
  intro h
  have hlen : (formatDate (y, m, d)).length = 1 := by rw [h]; rfl
  unfold formatDate at hlen
  simp only [String.length_append] at hlen
  have h1 : ("-" : String).length = 1 := rfl
  rw [h1] at hlen
  omega

/-- The missing marker stays missing under date coercion. -/
theorem dateCell_na : dateCell Cell.na = Cell.na := rfl

/-- Every output of `dateCell` is the missing marker or a formatted date. -/
theorem dateCell_shape (c : Cell) :
    dateCell c = Cell.na ∨ ∃ p, dateCell c = Cell.str (formatDate p) := by
  cases c with
  | na => exact Or.inl rfl
  | num q => exact Or.inl rfl
  | str s =>
    cases hp : parseDate s with
    | none => exact Or.inl (by simp [dateCell, hp])
    | some p => exact Or.inr ⟨p, by simp [dateCell, hp]⟩

/-- Rewriting a cell in place through a marker-fixing function reads back as
the function's value (also on ragged short rows, where both sides are the
image of the missing marker). -/
theorem set_getD_map (r : List Cell) (i : Nat) (f : Cell → Cell)
    (hf : f Cell.na = Cell.na) :
    (r.set i (f (r.getD i Cell.na))).getD i Cell.na = f (r.getD i Cell.na) := by
  by_cases hi : i < r.length
  · exact getD_set_self r i _ Cell.na hi
  · have hoob : r.length ≤ i := Nat.le_of_not_lt hi
    rw [set_oob _ _ _ hoob, getD_oob _ _ _ hoob, hf]

/-- Other columns are untouched by an in-place column rewrite. -/
theorem getCol_mapColAt_ne (t : Table) (j : Nat) (f : Cell → Cell) (i : Nat)
    (hij : i ≠ j) : getCol (mapColAt t j f) i = getCol t i := by
  unfold getCol mapColAt
  simp only [List.map_map]
  refine List.map_congr_left ?_
  intro r _
  exact getD_set_ne r i j _ Cell.na hij

/-- Reading back the column just rewritten in place. -/
theorem getCol_mapColAt_self (t : Table) (i : Nat) (f : Cell → Cell)
    (hf : f Cell.na = Cell.na) :
    getCol (mapColAt t i f) i = (getCol t i).map f := by
  unfold getCol mapColAt
  simp only [List.map_map]
  refine List.map_congr_left ?_
  intro r _
  exact set_getD_map r i f hf

/-- Full description of the date loop over any duplicate-free list of column
indices: column names are kept, unvisited columns are untouched, each visited
column is rewritten through `dateCell` exactly when its name contains
`"date"`. -/
theorem dateFold_spec (l : List Nat) :
    l.Nodup → ∀ t : Table,
    (l.foldl (fun t' i => if dateName (t'.cols.getD i "") then mapColAt t' i dateCell else t') t).cols
      = t.cols ∧
    (∀ i, i ∉ l →
      getCol (l.foldl (fun t' i => if dateName (t'.cols.getD i "") then mapColAt t' i dateCell else t') t) i
        = getCol t i) ∧
    (∀ i ∈ l,
      getCol (l.foldl (fun t' i => if dateName (t'.cols.getD i "") then mapColAt t' i dateCell else t') t) i
        = if dateName (t.cols.getD i "") then (getCol t i).map dateCell else getCol t i) := by
  induction l with
  | nil =>
    intro _ t
    exact ⟨rfl, fun i _ => rfl, fun i hi => absurd hi (List.not_mem_nil i)⟩
  | cons j l' ih =>
    intro hnd t
    obtain ⟨hj, hnd'⟩ := List.nodup_cons.mp hnd
    rw [List.foldl_cons]
    rcases (Bool.eq_false_or_eq_true (dateName (t.cols.getD j ""))).symm with hd | hd
    · rw [if_neg (by rw [hd]; exact Bool.false_ne_true)]
      obtain ⟨ihc, ihne, ihmem⟩ := ih hnd' t
      refine ⟨ihc, ?_, ?_⟩
      · intro i hi
        exact ihne i (fun h => hi (List.mem_cons_of_mem _ h))
      · intro i hi
        rcases List.mem_cons.mp hi with rfl | hil
        · rw [ihne i hj, if_neg (by rw [hd]; exact Bool.false_ne_true)]
        · exact ihmem i hil
    · rw [if_pos hd]
      obtain ⟨ihc, ihne, ihmem⟩ := ih hnd' (mapColAt t j dateCell)
      have hcols : (mapColAt t j dateCell).cols = t.cols := rfl
      refine ⟨ihc, ?_, ?_⟩
      · intro i hi
        have hij : i ≠ j := fun h => hi (h ▸ List.mem_cons_self _ _)
        have hil : i ∉ l' := fun h => hi (List.mem_cons_of_mem _ h)
        rw [ihne i hil, getCol_mapColAt_ne t j dateCell i hij]
      · intro i hi
        rcases List.mem_cons.mp hi with rfl | hil
        · rw [ihne i hj, if_pos hd, getCol_mapColAt_self t i dateCell dateCell_na]
        · have hij : i ≠ j := fun h => hj (h ▸ hil)
          rw [ihmem i hil, getCol_mapColAt_ne t j dateCell i hij]
          rfl

/-- C7: in the date-normalization step, every column whose name contains
`"date"` case-insensitively is rewritten value-by-value — a value parsing as a
calendar date becomes its canonical `YYYY-MM-DD` string, every other value
becomes the missing marker — and columns whose names do not contain `"date"`
are untouched by the step. -/
theorem date_normalization (t : Table) (i : Nat) (hi : i < t.cols.length) :
    (dateName (t.cols.getD i "") = true →
        getCol (dateStep t) i = (getCol t i).map dateCell) ∧
    (dateName (t.cols.getD i "") = false →
        getCol (dateStep t) i = getCol t i) ∧
    (∀ s p, parseDate s = some p → dateCell (Cell.str s) = Cell.str (formatDate p)) ∧
    (∀ s, parseDate s = none → dateCell (Cell.str s) = Cell.na) := by
  obtain ⟨hcols, hne, hmem⟩ :=
    dateFold_spec (List.range t.cols.length) (List.nodup_range _) t
  have hiR : i ∈ List.range t.cols.length := List.mem_range.mpr hi
  refine ⟨?_, ?_, ?_, ?_⟩
  · intro hd
    show getCol ((List.range t.cols.length).foldl
      (fun t' i => if dateName (t'.cols.getD i "") then mapColAt t' i dateCell else t') t) i
        = (getCol t i).map dateCell
    rw [hmem i hiR, if_pos hd]
  · intro hd
    show getCol ((List.range t.cols.length).foldl
      (fun t' i => if dateName (t'.cols.getD i "") then mapColAt t' i dateCell else t') t) i
        = getCol t i
    rw [hmem i hiR, if_neg (by rw [hd]; exact Bool.false_ne_true)]
  · intro s p hp
    simp [dateCell, hp]
  · intro s hp
    simp [dateCell, hp]

/-- Witness for C7: the spec's date example — ISO stays, US format is
canonicalized, junk becomes the missing marker. -/
theorem date_normalization_witness :
    getCol (dateStep tDates) 0
      = [Cell.str "2020-01-15", Cell.str "2020-01-16", Cell.na] := by
  rw [(date_normalization tDates 0 (by decide)).1 (by decide)]
  decide

/-- Counterexample for C8: `tBadDate` has a date-named column whose value
parses under no date format.  It survives sentinel replacement and the
missing-row drop (it is not `"?"`), and only the date step — which runs after
the drop — turns it into a missing marker, which therefore remains in the
output: the transformed table's date-named column is `[Cell.na]`, not a
normalized date string. -/
theorem date_residue_counterexample :
    (transformTable tBadDate).1.cols = ["visit_date"] ∧
    dateName "visit_date" = true ∧
    getCol (transformTable tBadDate).1 0 = [Cell.na] ∧
    ¬ (∀ c ∈ getCol (transformTable tBadDate).1 0, c ≠ Cell.na) :=
  ⟨by decide, by decide, by decide, by decide⟩

/-- C8 amended: in the table returned by `transform`, every cell of a column
whose name contains the date marker is either a normalized `YYYY-MM-DD` date
string or a missing marker — missing markers introduced by date normalization
are NOT removed, because the drop-missing step runs earlier. -/
theorem date_residue_amended (t : Table) (i : Nat) (hi : i < t.cols.length)
    (hd : dateName (t.cols.getD i "") = true) :
    ∀ c ∈ getCol (transformTable t).1 i, c = Cell.na ∨ ∃ p, c = Cell.str (formatDate p) := by
  intro c hc
  have hcolsu : (numericStep (dropMissing (replaceQna (dedupTable t)))).1.cols = t.cols := by
    rw [numericStep_cols]; rfl
  have hiu : i < (numericStep (dropMissing (replaceQna (dedupTable t)))).1.cols.length := by
    rw [hcolsu]; exact hi
  have hdu : dateName ((numericStep (dropMissing (replaceQna (dedupTable t)))).1.cols.getD i "")
      = true := by
    rw [hcolsu]; exact hd
  obtain ⟨_, _, hmem⟩ :=
    dateFold_spec
      (List.range (numericStep (dropMissing (replaceQna (dedupTable t)))).1.cols.length)
      (List.nodup_range _) (numericStep (dropMissing (replaceQna (dedupTable t)))).1
  have hcol : getCol (transformTable t).1 i
      = (getCol (numericStep (dropMissing (replaceQna (dedupTable t)))).1 i).map dateCell := by
    show getCol
      ((List.range (numericStep (dropMissing (replaceQna (dedupTable t)))).1.cols.length).foldl
        (fun t' i => if dateName (t'.cols.getD i "") then mapColAt t' i dateCell else t')
        (numericStep (dropMissing (replaceQna (dedupTable t)))).1) i = _
    rw [hmem i (List.mem_range.mpr hiu), if_pos hdu]
  rw [hcol] at hc
  obtain ⟨c0, _, h0⟩ := List.mem_map.mp hc
  rw [← h0]
  exact dateCell_shape c0

/-- Witness for the amended C8 at the concrete bad-date table. -/
theorem date_residue_amended_witness :
    Cell.na ∈ getCol (transformTable tBadDate).1 0 ∧
    (Cell.na = Cell.na ∨ ∃ p, Cell.na = Cell.str (formatDate p)) :=
  ⟨by decide, date_residue_amended tBadDate 0 (by decide) (by decide) Cell.na (by decide)⟩

-- ### Sentinel-freedom and duplicate-freedom through the pipeline

/-- After sentinel replacement no cell equals the sentinel string. -/
theorem noQ_replace (t : Table) :
    ∀ r ∈ (replaceQna t).rows, ∀ c ∈ r, c ≠ Cell.str "?" := by
  intro r hr c hc
  unfold replaceQna at hr
  simp only [List.mem_map] at hr
  obtain ⟨r0, _, hr0⟩ := hr
  rw [← hr0] at hc
  simp only [List.mem_map] at hc
  obtain ⟨c0, _, hc0⟩ := hc
  rw [← hc0]
  unfold replaceCell
  by_cases h : c0 = Cell.str "?"
  · rw [if_pos h]; intro hcon; exact Cell.noConfusion hcon
  · rw [if_neg h]; exact h

/-- Dropping rows preserves sentinel-freedom. -/
theorem noQ_drop (t : Table)
    (h : ∀ r ∈ t.rows, ∀ c ∈ r, c ≠ Cell.str "?") :
    ∀ r ∈ (dropMissing t).rows, ∀ c ∈ r, c ≠ Cell.str "?" := by
  intro r hr
  unfold dropMissing at hr
  exact h r (List.mem_of_mem_filter hr)

/-- A successfully coerced cell is a number or the missing marker. -/
theorem toNumericCell_shape (c v : Cell) (h : toNumericCell c = some v) :
    (∃ q, v = Cell.num q) ∨ v = Cell.na := by
  cases c with
  | num q =>
    simp only [toNumericCell, Option.some.injEq] at h
    exact Or.inl ⟨q, h.symm⟩
  | na =>
    simp only [toNumericCell, Option.some.injEq] at h
    exact Or.inr h.symm
  | str s =>
    simp only [toNumericCell] at h
    cases hp : parseRat s with
    | none => rw [hp] at h; simp at h
    | some q =>
      rw [hp] at h
      simp at h
      exact Or.inl ⟨q, h.symm⟩

/-- Every value in a successfully coerced column is a number or missing. -/
theorem coerceCol_shape (l : List Cell) :
    ∀ vs, coerceCol l = some vs → ∀ v ∈ vs, (∃ q, v = Cell.num q) ∨ v = Cell.na := by
  induction l with
  | nil =>
    intro vs h v hv
    simp only [coerceCol, Option.some.injEq] at h
    rw [← h] at hv
    simp at hv
  | cons c cs ih =>
    intro vs h v hv
    unfold coerceCol at h
    cases hc : toNumericCell c with
    | none => rw [hc] at h; simp at h
    | some v0 =>
      cases hcs : coerceCol cs with
      | none => rw [hc, hcs] at h; simp at h
      | some vs' =>
        rw [hc, hcs] at h
        simp only [Option.some.injEq] at h
        rw [← h] at hv
        rcases List.mem_cons.mp hv with rfl | hv'
        · exact toNumericCell_shape c v hc
        · exact ih vs' hcs v hv'

/-- The numeric-coercion loop preserves sentinel-freedom. -/
theorem noQ_numericStep (t : Table)
    (h : ∀ r ∈ t.rows, ∀ c ∈ r, c ≠ Cell.str "?") :
    ∀ r ∈ (numericStep t).1.rows, ∀ c ∈ r, c ≠ Cell.str "?" := by
  refine foldl_inv (fun p => ∀ r ∈ p.1.rows, ∀ c ∈ r, c ≠ Cell.str "?")
    numericLoopF ?_ (List.range t.cols.length) (t, []) h
  intro p i hp
  unfold numericLoopF
  cases hc : coerceCol (getCol p.1 i) with
  | none => exact hp
  | some vs =>
    intro r hr c hcr
    unfold setColVals at hr
    simp only [List.mem_map] at hr
    obtain ⟨⟨r0, v⟩, hz, hr0⟩ := hr
    have hr0mem : r0 ∈ p.1.rows := (List.of_mem_zip hz).1
    have hvmem : v ∈ vs := (List.of_mem_zip hz).2
    rw [← hr0] at hcr
    rcases mem_of_mem_set hcr with hin | rfl
    · exact hp r0 hr0mem c hin
    · rcases coerceCol_shape (getCol p.1 i) vs hc c hvmem with ⟨q, rfl⟩ | rfl
      · intro hcon; exact Cell.noConfusion hcon
      · intro hcon; exact Cell.noConfusion hcon

/-- The date loop preserves sentinel-freedom: a rewritten cell is either the
missing marker or a formatted date string, never the bare sentinel. -/
theorem noQ_dateStep (t : Table)
    (h : ∀ r ∈ t.rows, ∀ c ∈ r, c ≠ Cell.str "?") :
    ∀ r ∈ (dateStep t).rows, ∀ c ∈ r, c ≠ Cell.str "?" := by
  refine foldl_inv (fun t' => ∀ r ∈ t'.rows, ∀ c ∈ r, c ≠ Cell.str "?")
    (fun t' i => if dateName (t'.cols.getD i "") then mapColAt t' i dateCell else t')
    ?_ (List.range t.cols.length) t h
  intro t' i hp
  show ∀ r ∈ (if dateName (t'.cols.getD i "") then mapColAt t' i dateCell else t').rows,
    ∀ c ∈ r, c ≠ Cell.str "?"
  rcases (Bool.eq_false_or_eq_true (dateName (t'.cols.getD i ""))).symm with hd | hd
  · rw [if_neg (by rw [hd]; exact Bool.false_ne_true)]
    exact hp
  · rw [if_pos hd]
    intro r hr c hcr
    unfold mapColAt at hr
    simp only [List.mem_map] at hr
    obtain ⟨r0, hr0mem, hr0⟩ := hr
    rw [← hr0] at hcr
    rcases mem_of_mem_set hcr with hin | rfl
    · exact hp r0 hr0mem c hin
    · rcases dateCell_shape (r0.getD i Cell.na) with hsh | ⟨p, hsh⟩
      · rw [hsh]; intro hcon; exact Cell.noConfusion hcon
      · rw [hsh]
        intro hcon
        exact formatDate_ne_q p (Cell.str.inj hcon)

/-- `filter` after `map` is `map` after `filter` of the composed predicate. -/
theorem filterOfMap (l : List (List Cell)) (f : List Cell → List Cell)
    (p : List Cell → Bool) :
    (l.map f).filter p = (l.filter (fun r => p (f r))).map f := by
  induction l with
  | nil => rfl
  | cons x xs ih =>
    cases hx : p (f x) with
    | false => simp [List.filter_cons, hx, ih]
    | true => simp [List.filter_cons, hx, ih]

/-- A row surviving `dropna` after sentinel replacement was not changed by the
replacement at all. -/
theorem replace_fix_of_no_na (r : List Cell) (h : Cell.na ∉ r.map replaceCell) :
    r.map replaceCell = r := by
  have hfix : ∀ c ∈ r, replaceCell c = c := by
    intro c hc
    by_cases hq : c = Cell.str "?"
    · exfalso
      apply h
      refine List.mem_map.mpr ⟨c, hc, ?_⟩
      rw [hq]
      rfl
    · unfold replaceCell
      rw [if_neg hq]
  calc r.map replaceCell = r.map id := List.map_congr_left hfix
    _ = r := List.map_id r

/-- After sentinel replacement and `dropna`, the surviving rows of a
duplicate-free row list are still pairwise distinct: a surviving row contains
no missing marker, hence contained no sentinel, hence was not changed by the
replacement. -/
theorem drop_replace_nodup (l : List (List Cell)) (hnd : l.Nodup) :
    ((l.map (List.map replaceCell)).filter (fun r => decide (Cell.na ∉ r))).Nodup := by
  rw [filterOfMap]
  refine List.Nodup.map_on ?_ (hnd.filter _)
  intro x hx y hy hxy
  have hxfix : x.map replaceCell = x :=
    replace_fix_of_no_na x (of_decide_eq_true ((List.mem_filter.mp hx).2))
  have hyfix : y.map replaceCell = y :=
    replace_fix_of_no_na y (of_decide_eq_true ((List.mem_filter.mp hy).2))
  rw [hxfix, hyfix] at hxy
  exact hxy

/-- Counterexample for C2: on `tMixed` — distinct rows `["1"]` (string) and
`[1]` (number) in a single all-parseable column — numeric coercion maps both
rows to `[1]`, so the transformed table contains two equal rows. -/
theorem transform_nodup_counterexample :
    (transformTable tMixed).1.rows = [[Cell.num 1], [Cell.num 1]] ∧
    ¬ ((∀ r ∈ (transformTable tMixed).1.rows, ∀ c ∈ r, c ≠ Cell.str "?") ∧
       (transformTable tMixed).1.rows.Nodup) :=
  ⟨by decide, by decide⟩

/-- C2 amended: after `transform`, no cell equals the sentinel `"?"`; and the
rows are pairwise distinct at the point just after the drop-missing step —
the later numeric coercion (and date normalization) can merge previously
distinct rows, re-introducing duplicates in the final output. -/
theorem transform_no_sentinel_amended (t : Table) :
    (∀ r ∈ (transformTable t).1.rows, ∀ c ∈ r, c ≠ Cell.str "?") ∧
    (dropMissing (replaceQna (dedupTable t))).rows.Nodup := by
  constructor
  · show ∀ r ∈ (dateStep (numericStep (dropMissing (replaceQna (dedupTable t)))).1).rows,
      ∀ c ∈ r, c ≠ Cell.str "?"
    exact noQ_dateStep _ (noQ_numericStep _ (noQ_drop _ (noQ_replace _)))
  · exact drop_replace_nodup (dedupRows t.rows) (dedupRows_nodup t.rows)

/-- Witness for the amended C2 on the spec's end-to-end sample table. -/
theorem transform_no_sentinel_amended_witness :
    Cell.num 29 ≠ Cell.str "?" ∧
    (dropMissing (replaceQna (dedupTable sampleTable))).rows.Nodup := by
  have h := transform_no_sentinel_amended sampleTable
  exact ⟨h.1 [Cell.num 29, Cell.num 1, Cell.num 0, Cell.num 240] (by decide)
      (Cell.num 29) (by decide), h.2⟩

-- ### The statement-level (heap) execution agrees with the pure composition

/-- Writing back what was just read is a no-op. -/
theorem set_getD_refl {α : Type} (l : List α) (i : Nat) (d : α) (hi : i < l.length) :
    l.set i (l.getD i d) = l := by
  induction l generalizing i with
  | nil => rfl
  | cons x xs ih =>
    cases i with
    | zero => rfl
    | succ i' =>
      show x :: xs.set i' (xs.getD i' d) = x :: xs
      rw [ih i' (Nat.lt_of_succ_lt_succ hi)]

/-- The numeric loop run against the heap, mutating the frame at address `a`
in place at each iteration, is the pure numeric loop on that frame followed by
a single write-back. -/
theorem heapNumFold (l : List Nat) :
    ∀ (h : List Table) (a : Nat), a < h.length → ∀ (s : List String),
    l.foldl (fun (q : List Table × List String) i =>
        (q.1.set a (numericLoopF (q.1.getD a default, q.2) i).1,
         (numericLoopF (q.1.getD a default, q.2) i).2)) (h, s)
      = (h.set a (l.foldl numericLoopF (h.getD a default, s)).1,
         (l.foldl numericLoopF (h.getD a default, s)).2) := by
  induction l with
  | nil =>
    intro h a ha s
    simp only [List.foldl_nil]
    rw [set_getD_refl h a default ha]
  | cons j l' ih =>
    intro h a ha s
    rw [List.foldl_cons, List.foldl_cons]
    dsimp only
    rw [ih (h.set a (numericLoopF (h.getD a default, s) j).1) a
        (by rw [List.length_set]; exact ha) (numericLoopF (h.getD a default, s) j).2]
    rw [getD_set_self h a _ default ha, set_set_self]

/-- The date loop run against the heap, mutating the frame at address `a` in
place, is the pure date loop on that frame followed by a single write-back. -/
theorem heapDateFold (l : List Nat) :
    ∀ (h : List Table) (a : Nat), a < h.length →
    l.foldl (fun (hh : List Table) i =>
        if dateName ((hh.getD a default).cols.getD i "")
          then hh.set a (mapColAt (hh.getD a default) i dateCell) else hh) h
      = h.set a (l.foldl
          (fun t' i => if dateName (t'.cols.getD i "") then mapColAt t' i dateCell else t')
          (h.getD a default)) := by
  induction l with
  | nil =>
    intro h a ha
    simp only [List.foldl_nil]
    rw [set_getD_refl h a default ha]
  | cons j l' ih =>
    intro h a ha
    rw [List.foldl_cons, List.foldl_cons]
    rcases (Bool.eq_false_or_eq_true (dateName ((h.getD a default).cols.getD j ""))).symm
      with hd | hd
    · have hcond : ¬ (dateName ((h.getD a default).cols.getD j "") = true) := by
        rw [hd]; exact Bool.false_ne_true
      rw [if_neg hcond, if_neg hcond]
      exact ih h a ha
    · rw [if_pos hd, if_pos hd]
      rw [ih (h.set a (mapColAt (h.getD a default) j dateCell)) a
          (by rw [List.length_set]; exact ha)]
      rw [getD_set_self h a _ default ha, set_set_self]

/-- Closed form of the heap execution: the caller's frame at address 0 still
holds `t`, address 1 holds the dedup frame as mutated by the in-place sentinel
replacement, and address 2 — the address `transform` returns — holds the fully
cleaned table. -/
theorem transformExec_eq (t : Table) :
    transformExec t
      = (([t, replaceQna (dedupTable t),
           dateStep (numericStep (dropMissing (replaceQna (dedupTable t)))).1],
          (numericStep (dropMissing (replaceQna (dedupTable t)))).2), 2) := by
  simp only [transformExec]
  rw [heapNumFold]
  rw [heapDateFold]
  · rfl
  · simp [List.length_append, List.length_set]
  · simp [List.length_append, List.length_set]

/-- C1: the statement-by-statement execution of `transform` — duplicate
removal, then in-place sentinel replacement, then missing-row drop, then the
numeric-coercion loop, then the date loop, each consuming the previous
result — returns exactly the five step functions composed in that fixed
order; in particular duplicate removal (`dedupTable`) is applied to the input
before sentinel replacement and the missing-value drop, and `transformTable`
is that same composition. -/
theorem transform_step_order (t : Table) :
    (transformExec t).1.1.getD (transformExec t).2 default
        = dateStep (numericStep (dropMissing (replaceQna (dedupTable t)))).1 ∧
    (transformExec t).1.2 = (numericStep (dropMissing (replaceQna (dedupTable t)))).2 ∧
    transformTable t
        = (dateStep (numericStep (dropMissing (replaceQna (dedupTable t)))).1,
           (numericStep (dropMissing (replaceQna (dedupTable t)))).2) := by
  rw [transformExec_eq]
  exact ⟨rfl, rfl, rfl⟩

/-- C6: `transform` does not mutate its argument.  In the heap execution the
caller's dataframe sits at address 0; after the whole transformation the
frame at address 0 still holds exactly the input table (same columns, rows,
and cells), and the returned frame is a different allocation (its address is
not 0) — the in-place statements only ever mutate the fresh copies made by
`drop_duplicates` and `dropna`. -/
theorem transform_no_mutation (t : Table) :
    (transformExec t).1.1.getD 0 default = t ∧ (transformExec t).2 ≠ 0 := by
  rw [transformExec_eq]
  exact ⟨rfl, Nat.succ_ne_zero 1⟩

/-- C5: `load` never raises to its caller.  Whatever the database outcome —
success, a connection failure raised by `create_engine`, or a write failure
raised by `to_sql` — the caller-visible result is a normal return
(`Except.ok`); when the body raises, the error is caught and logged. -/
theorem load_never_raises (t : Table) (tableName : String) (o : DbOutcome) :
    (∃ logs, load t tableName o = Except.ok logs) ∧
    (∀ e, loadBody t tableName o = Except.error e →
        load t tableName o
          = Except.ok ["Failed to load data into PostgreSQL: " ++ e]) ∧
    (∀ e, o = DbOutcome.connectFail e ∨ o = DbOutcome.writeFail e →
        loadBody t tableName o = Except.error e) := by
  refine ⟨?_, ?_, ?_⟩
  · cases o with
    | ok =>
      exact ⟨["Data successfully loaded into table '" ++ tableName ++ "'."], rfl⟩
    | connectFail e =>
      exact ⟨["Failed to load data into PostgreSQL: " ++ e], rfl⟩
    | writeFail e =>
      exact ⟨["Failed to load data into PostgreSQL: " ++ e], rfl⟩
  · intro e he
    unfold load
    rw [he]
  · intro e he
    rcases he with rfl | rfl
    · rfl
    · rfl

/-- Witness for C5: a concrete failing write is caught and logged, the caller
sees a normal return. -/
theorem load_never_raises_witness :
    load ⟨["a"], [[Cell.num 1]]⟩ "heart_disease" (DbOutcome.writeFail "boom")
      = Except.ok ["Failed to load data into PostgreSQL: boom"] :=
  (load_never_raises ⟨["a"], [[Cell.num 1]]⟩ "heart_disease"
      (DbOutcome.writeFail "boom")).2.1 "boom"
    ((load_never_raises ⟨["a"], [[Cell.num 1]]⟩ "heart_disease"
        (DbOutcome.writeFail "boom")).2.2 "boom" (Or.inr rfl))
